import Mathlib

/-!
Verification development for the conversion-session orchestrator of the
Mac2Windows repository.  Python sources are shallowly embedded: pure
functions become Lean functions, the stateful cost tracker and the
run-loop become explicit state passing, Python floats become `ℚ`, and
fallible calls return `Option`/`Except`.  Each definition names the
source symbol it embeds.
-/

namespace Mac2Win

/-! ## Data model (backend/conversion/models.py) -/

/-- `ChunkStatus` enum (models.py: PENDING, IN_PROGRESS, COMPLETED, FAILED, SKIPPED). -/
inductive ChunkStatus where
  | pending
  | inProgress
  | completed
  | failed
  | skipped
deriving DecidableEq, Repr

/-- `Stage` enum (models.py). -/
inductive Stage where
  | resources
  | dependencies
  | projectSetup
  | code
  | tests
  | quality
deriving DecidableEq, Repr

/-- `STAGE_ORDER` (models.py lines 18-25). -/
def STAGE_ORDER : List Stage :=
  [Stage.resources, Stage.dependencies, Stage.projectSetup, Stage.code, Stage.tests, Stage.quality]

/-- `STAGE_WEIGHTS` (models.py lines 28-35); Python floats 0.10/0.05/0.60 are
exactly representable decimals, embedded as the rationals they denote. -/
def STAGE_WEIGHTS : Stage → ℚ
  | Stage.resources => 1/10
  | Stage.dependencies => 1/10
  | Stage.projectSetup => 1/20
  | Stage.code => 3/5
  | Stage.tests => 1/10
  | Stage.quality => 1/20

/-- `StageProgress` dataclass (models.py lines 110-121). -/
structure StageProgress where
  completedUnits : ℕ
  totalUnits : ℕ
  status : String
deriving DecidableEq, Repr

/-- `StageProgress.percentage` property (models.py lines 117-121):
`0.0` when `total_units == 0`, else `min(1.0, completed_units / total_units)`. -/
def StageProgress.percentage (p : StageProgress) : ℚ :=
  if p.totalUnits = 0 then 0 else min 1 ((p.completedUnits : ℚ) / (p.totalUnits : ℚ))

/-- The stage-completion ratio exactly as the spec phrases it
(completed-units / total-units, 0 if total is 0) — no clamp.  Used to
compare the code's `percentage` against the spec's formula. -/
def specStageRatio (p : StageProgress) : ℚ :=
  if p.totalUnits = 0 then 0 else (p.completedUnits : ℚ) / (p.totalUnits : ℚ)

/-- `ProgressTracker.complete_stage` (progress.py lines 42-46): unconditionally
sets the stage to `completed` with `completed_units = total_units`. -/
def complete_stage (p : StageProgress) : StageProgress :=
  { p with status := "completed", completedUnits := p.totalUnits }

/-- `ProgressTracker._overall_percentage` (progress.py lines 100-107): the
stage-progress dict is embedded as `Stage → Option StageProgress`
(`dict.get` on a missing stage contributes nothing). -/
def overall_percentage (sp : Stage → Option StageProgress) : ℚ :=
  min 1 (STAGE_ORDER.foldl
    (fun acc stage =>
      match sp stage with
      | none => acc
      | some progress => acc + STAGE_WEIGHTS stage * progress.percentage)
    0)

/-- The overall percentage exactly as the spec phrases it:
`Σ stageWeight × stageCompletionRatio` over all stages (no clamp). -/
def specOverallFormula (sp : Stage → Option StageProgress) : ℚ :=
  STAGE_ORDER.foldl
    (fun acc stage =>
      match sp stage with
      | none => acc
      | some progress => acc + STAGE_WEIGHTS stage * specStageRatio progress)
    0

/-! ## CostTracker (backend/conversion/cost_tracker.py) -/

/-- `CostSettings` dataclass (models.py lines 60-67). -/
structure CostSettings where
  enabled : Bool
  maxBudgetUsd : ℚ
  warnPercent : ℚ
  autoSwitchModel : Bool
  fallbackModelIdentifier : Option String
  fallbackProviderId : Option String
deriving DecidableEq, Repr

/-- The per-session dict stored in `CostTracker._sessions` (cost_tracker.py
lines 40-48); the Python code keeps every field as a float, booleans
included, mirrored here with `warned`/`switched` as rationals. -/
structure CostState where
  totalCost : ℚ
  warned : ℚ
  switched : ℚ
  maxBudget : ℚ
  warnPercent : ℚ
  autoSwitch : ℚ
deriving DecidableEq, Repr

/-- `CostUpdate` dataclass (cost_tracker.py lines 24-30).  The warning text
is an interpolated f-string in the source; only its presence is modelled,
via short labels. -/
structure CostUpdate where
  continueProcessing : Bool
  totalCost : ℚ
  percentConsumed : ℚ
  warning : Option String
  switchedModel : Bool
deriving DecidableEq, Repr

namespace CostTracker

/-- `CostTracker.start` (cost_tracker.py lines 40-48).  Python's
`cost_settings.warn_percent or 0.8` yields `0.8` when `warn_percent` is
falsy (`0.0`). -/
def start (cs : CostSettings) : CostState :=
  { totalCost := 0
    warned := 0
    switched := 0
    maxBudget := max cs.maxBudgetUsd 0
    warnPercent := max (min (if cs.warnPercent = 0 then 8/10 else cs.warnPercent) 1) (1/20)
    autoSwitch := if cs.autoSwitchModel then 1 else 0 }

/-- `CostTracker.update` (cost_tracker.py lines 60-101), as a pure function
from the session state to the returned `CostUpdate` and the new state. -/
def update (settings : CostSettings) (state : CostState) (additionalCost : ℚ) :
    CostUpdate × CostState :=
  let state := { state with totalCost := state.totalCost + additionalCost }
  let totalCost := state.totalCost
  let maxBudget := state.maxBudget
  let percentConsumed : ℚ :=
    if settings.enabled ∧ maxBudget > 0 then min (totalCost / maxBudget) 10 else 0
  if settings.enabled ∧ maxBudget > 0 ∧ percentConsumed ≥ 1 then
    (⟨false, totalCost, percentConsumed, some "cost_limit_reached", false⟩, state)
  else
    if settings.enabled ∧ maxBudget > 0 ∧ percentConsumed ≥ state.warnPercent ∧
        state.warned = 0 then
      let state := { state with warned := percentConsumed }
      if settings.autoSwitchModel ∧ state.switched = 0 then
        let state := { state with switched := percentConsumed }
        (⟨true, totalCost, percentConsumed, some "cost_budget_warning", true⟩, state)
      else
        (⟨true, totalCost, percentConsumed, some "cost_budget_warning", false⟩, state)
    else
      (⟨true, totalCost, percentConsumed, none, false⟩, state)

end CostTracker

/-! ## Run loop (backend/conversion/manager.py `_run_session` / `_process_chunk`) -/

/-- The slice of a `ChunkRecord` (models.py lines 147-161) that the run-loop
dispatch and the incremental/cost policies read.  `costUsd` stands for the
cost the completion service reports if this chunk is converted, and
`filePath`/`checksum` for `chunk.file_path` / `chunk.checksum`. -/
structure ChunkRec where
  chunkId : String
  stage : Stage
  status : ChunkStatus
  costUsd : ℚ
  filePath : String
  checksum : Option String
deriving DecidableEq, Repr

/-- The per-chunk dispatch of `_run_session` (manager.py lines 776-788): a
chunk reaches `_process_chunk` only when its status is neither
`COMPLETED`/`SKIPPED` (line 778) nor `FAILED` (line 784). -/
def shouldProcess (status : ChunkStatus) : Bool :=
  match status with
  | ChunkStatus.completed => false
  | ChunkStatus.skipped => false
  | ChunkStatus.failed => false
  | _ => true

/-- One stage of `_run_session` (manager.py lines 776-789) together with the
cost policy of `_process_chunk` (lines 954-976): each dispatched chunk is
converted (successfully, with its `costUsd`), `CostTracker.update` runs,
and when it returns `continue_processing = False` the session is paused,
so `_respect_pause` (line 786) blocks every later chunk.  Returns the ids
handed to `_process_chunk`, the final cost state, and the paused flag. -/
def runStage (settings : CostSettings) (state : CostState) :
    List ChunkRec → List String × CostState × Bool
  | [] => ([], state, false)
  | record :: rest =>
    if shouldProcess record.status then
      let (upd, state') := CostTracker.update settings state record.costUsd
      if upd.continueProcessing then
        let (ids, finalState, paused) := runStage settings state' rest
        (record.chunkId :: ids, finalState, paused)
      else
        ([record.chunkId], state', true)
    else
      runStage settings state rest

/-! ## IncrementalState (backend/conversion/incremental.py) -/

/-- `IncrementalState.is_changed` (incremental.py lines 36-38): the cache is
embedded as `String → Option String`; an absent entry (`none`) never
equals `some checksum`, so it counts as changed. -/
def is_changed (cache : String → Option String) (filePath : String)
    (newChecksum : String) : Bool :=
  cache filePath ≠ some newChecksum

/-- The per-record body of `ConversionManager._mark_skipped_chunks`
(manager.py lines 1354-1366).  The filesystem is embedded as
`fs : String → Option String`, giving `calculate_checksum` of a file when
`file_path.exists()` and `none` otherwise. -/
def markSkippedRecord (cache fs : String → Option String) (record : ChunkRec) : ChunkRec :=
  if record.stage ≠ Stage.code then record
  else
    match fs record.filePath with
    | none => record
    | some checksum =>
      let record := { record with checksum := some checksum }
      if is_changed cache record.filePath checksum then record
      else { record with status := ChunkStatus.skipped }

/-- `_mark_skipped_chunks` over the whole record map, run at session start
(manager.py lines 724-725) before the run-loop task is created. -/
def mark_skipped_chunks (cache fs : String → Option String)
    (records : List ChunkRec) : List ChunkRec :=
  records.map (markSkippedRecord cache fs)

/-! ## Resume (backend/conversion/manager.py `resume_failed_session`) -/

/-- The status-restoration loop of `resume_failed_session` (manager.py lines
324-338): every freshly registered record whose id appears in the saved
chunk map gets the saved record's status (and counters); ids missing from
the saved map keep their fresh `PENDING` status. -/
def resumeRecord (saved : List (String × ChunkStatus)) (record : ChunkRec) : ChunkRec :=
  match saved.lookup record.chunkId with
  | some savedStatus => { record with status := savedStatus }
  | none => record

/-- Status restoration over the whole freshly built work plan. -/
def resumeRecords (saved : List (String × ChunkStatus)) (records : List ChunkRec) :
    List ChunkRec :=
  records.map (resumeRecord saved)

/-! ## ErrorRecoveryEngine (backend/conversion/error_recovery.py) -/

/-- The slice of `AISettings` (models.py lines 274-282) read by the recovery
engine.  `retries` is a Python int; the orchestrator only ever configures
it non-negative, so it is embedded as `ℕ`. -/
structure AISettings where
  retries : ℕ
  fallbackModelIdentifier : Option String
  fallbackProviderId : Option String
deriving DecidableEq, Repr

/-- The slice of `OrchestrationConfig` (backend/ai/orchestrator.py) that
`ErrorRecoveryEngine` reads and `dataclasses.replace` rewrites; the
remaining fields (api key, temperature, max tokens) ride along unchanged
and are left out. -/
structure OrchestrationConfig where
  providerId : String
  modelIdentifier : String
deriving DecidableEq, Repr

/-- Python's `a or b` for an optional string: `None` and `''` are falsy. -/
def pyOrStr (a : Option String) (b : String) : String :=
  match a with
  | some s => if s = "" then b else s
  | none => b

/-- `ErrorRecoveryEngine._resolve_fallback_config` (error_recovery.py lines
89-107): fallback provider/model fall back through AI settings, cost
settings, then the base config; `None` is returned when the resolved pair
equals the primary pair. -/
def resolve_fallback_config (ai : AISettings) (cost : CostSettings)
    (base : OrchestrationConfig) : Option OrchestrationConfig :=
  let providerId := pyOrStr ai.fallbackProviderId (pyOrStr cost.fallbackProviderId base.providerId)
  let modelIdentifier :=
    pyOrStr ai.fallbackModelIdentifier (pyOrStr cost.fallbackModelIdentifier base.modelIdentifier)
  if providerId = base.providerId ∧ modelIdentifier = base.modelIdentifier then none
  else some { providerId := providerId, modelIdentifier := modelIdentifier }

/-- The backoff delay slept after the `attempt`-th failed primary call
(error_recovery.py line 59: `backoff * attempt` with `backoff = 1.5`). -/
def backoffDelay (attempt : ℕ) : ℚ :=
  3/2 * (attempt : ℚ)

/-- The primary `while attempt < max_attempts` loop of
`ErrorRecoveryEngine.execute` (error_recovery.py lines 37-59).  The
injected `convert_callable` is embedded as `f : ℕ → OrchestrationConfig →
Except String α` where the first argument is the 0-based index of the
call (stubs in the spec's scenarios count calls); every loop iteration
passes the unchanged primary config.  Returns the successful value (if
any) and the number of calls made. -/
def retryPrimary (f : ℕ → OrchestrationConfig → Except String α)
    (config : OrchestrationConfig) : ℕ → ℕ → Option α × ℕ
  | _start, 0 => (none, 0)
  | start, Nat.succ remaining =>
    match f start config with
    | Except.ok a => (some a, 1)
    | Except.error _ =>
      let (result, calls) := retryPrimary f config (start + 1) remaining
      (result, calls + 1)

/-- `ErrorRecoveryEngine.execute` (error_recovery.py lines 21-87):
`max_attempts = max(retries, 1) + 1` primary attempts, then at most one
attempt with the resolved fallback config; a failing fallback re-raises
its `ProviderError`, and without a distinct fallback the call raises
permanently.  Returns the result together with the trace of configs
passed to the injected callable, in call order. -/
def execute (f : ℕ → OrchestrationConfig → Except String α) (ai : AISettings)
    (cost : CostSettings) (base : OrchestrationConfig) :
    Except String α × List OrchestrationConfig :=
  let maxAttempts := max ai.retries 1 + 1
  let (result, calls) := retryPrimary f base 0 maxAttempts
  let primaryTrace := List.replicate calls base
  match result with
  | some a => (Except.ok a, primaryTrace)
  | none =>
    match resolve_fallback_config ai cost base with
    | some fallbackConfig =>
      match f calls fallbackConfig with
      | Except.ok a => (Except.ok a, primaryTrace ++ [fallbackConfig])
      | Except.error e => (Except.error e, primaryTrace ++ [fallbackConfig])
    | none => (Except.error "Conversion failed for chunk after retries", primaryTrace)

/-! ## LearningMemory (backend/learning/memory.py) -/

/-- One entry of the persisted pattern store (memory.py lines 37-49). -/
structure LearningPattern where
  fingerprint : String
  originalExample : String
  replacement : String
  count : ℕ
  autoAttempts : ℕ
  autoSuccesses : ℕ
  autoFailures : ℕ
  threshold : ℕ
  hint : Option String
deriving DecidableEq, Repr

/-- `LearningMemory.THRESHOLD` (memory.py line 12). -/
def THRESHOLD : ℕ := 3

/-- The metadata keys `record_manual_fix` reads (memory.py lines 31-61). -/
structure FixMetadata where
  threshold : Option ℤ
  note : Option String
  reason : Option String
deriving DecidableEq, Repr

/-- Python's `str.lower()` restricted to the ASCII range, as a per-character
map (all inputs in this code base are ASCII identifiers and suffixes). -/
def pyLower (s : String) : String :=
  String.mk (s.toList.map Char.toLower)

/-- Python's `str.strip()`: drops leading and trailing whitespace. -/
def pyStrip (s : String) : String :=
  String.mk (((s.toList.dropWhile Char.isWhitespace).reverse.dropWhile
    Char.isWhitespace).reverse)

/-- Python's slice `s[:n]`: the first `n` characters. -/
def pyTake (n : ℕ) (s : String) : String :=
  String.mk (s.toList.take n)

/-- Matches one character of the regex class `[A-Za-z_]` (memory.py line 131);
`Char.isAlpha` tests exactly `A`-`Z`/`a`-`z`. -/
def isTokenChar (c : Char) : Bool :=
  c.isAlpha || c = '_'

/-- Worker for `alphaTokens`; the fuel argument only bounds the recursion
depth and `alphaTokens` supplies the character count, which always
suffices because every step drops at least one character. -/
def alphaTokensGo : ℕ → List Char → List String
  | 0, _ => []
  | _, [] => []
  | Nat.succ fuel, c :: rest =>
    if isTokenChar c then
      String.mk (c :: rest.takeWhile isTokenChar) ::
        alphaTokensGo fuel (rest.dropWhile isTokenChar)
    else
      alphaTokensGo fuel rest

/-- `re.findall(r'[A-Za-z_]+', content)` (memory.py line 131): the maximal
runs of token characters, in order. -/
def alphaTokens (cs : List Char) : List String :=
  alphaTokensGo cs.length cs

/-- `LearningMemory.fingerprint` (memory.py lines 130-135).  The final
`sha256` is a collision-resistant identity for the normalized text and is
embedded as the identity function: two contents share a fingerprint here
exactly when their normalized texts coincide. -/
def fingerprint (content : String) : String :=
  let tokens := alphaTokens content.toList
  let normalized := pyLower (String.intercalate " " (tokens.take 800))
  if normalized = "" then pyTake 800 (pyLower (pyStrip content)) else normalized

/-- `LearningMemory._find_pattern` (memory.py lines 137-141). -/
def find_pattern (patterns : List LearningPattern) (fp : String) : Option LearningPattern :=
  patterns.find? (fun p => p.fingerprint = fp)

/-- The validated threshold override (memory.py lines 31-34): accepted only
when the metadata holds a positive int, then clamped with `max(1, ·)`. -/
def thresholdOverride (md : FixMetadata) : Option ℕ :=
  match md.threshold with
  | some t => if t > 0 then some (max 1 t).toNat else none
  | none => none

/-- Python `metadata.get('note') or metadata.get('reason')` with `''` falsy. -/
def pyOrOpt (a b : Option String) : Option String :=
  match a with
  | some s => if s = "" then b else some s
  | none => b

/-- `LearningMemory.record_manual_fix` (memory.py lines 24-63) acting on the
persisted pattern list: returns the store unchanged when `original` or
`corrected` is falsy; otherwise creates (count 0) or finds the pattern for
`fingerprint(original)`, applies a valid threshold override, increments
`count`, stores the latest replacement/example, and refreshes the hint
when a truthy note is supplied. -/
def record_manual_fix (patterns : List LearningPattern) (original corrected : String)
    (md : FixMetadata) : List LearningPattern :=
  if original = "" ∨ corrected = "" then patterns
  else
    let fp := fingerprint original
    let bump := fun (p : LearningPattern) =>
      { p with
          count := p.count + 1
          replacement := corrected
          originalExample := original
          hint :=
            match md.note with
            | some n => if n = "" then p.hint else some n
            | none => p.hint }
    match find_pattern patterns fp with
    | none =>
      let created : LearningPattern :=
        { fingerprint := fp
          originalExample := original
          replacement := corrected
          count := 0
          autoAttempts := 0
          autoSuccesses := 0
          autoFailures := 0
          threshold := (thresholdOverride md).getD THRESHOLD
          hint := pyOrOpt md.note md.reason }
      patterns ++ [bump created]
    | some _ =>
      patterns.map (fun p =>
        if p.fingerprint = fp then
          bump { p with threshold := (thresholdOverride md).getD p.threshold }
        else p)

/-- `LearningMemory.get_pattern` (memory.py lines 65-75): `None` for falsy
content, `None` when no pattern matches `fingerprint(content)` or its
count is below its threshold, else (a copy of) the pattern. -/
def get_pattern (patterns : List LearningPattern) (content : String) :
    Option LearningPattern :=
  if content = "" then none
  else
    match find_pattern patterns (fingerprint content) with
    | none => none
    | some p => if p.count < p.threshold then none else some p

/-! ## Chunker (backend/conversion/chunker.py) -/

/-- `MAX_CHUNK_LINES` (chunker.py line 52). -/
def MAX_CHUNK_LINES : ℕ := 120

/-- `MIN_CHUNK_LINES` (chunker.py line 53).  The constant is defined in the
source but referenced nowhere else in the repository. -/
def MIN_CHUNK_LINES : ℕ := 30

/-- The `while start <= total_lines` loop of `_group_lines_by_boundaries`
for an empty boundary list (chunker.py lines 219-225).  The extra fuel
argument only bounds the iteration count; `chunkRangesNoBounds` supplies
`total_lines + 1`, which the loop never exhausts when `max_lines ≥ 1`
since each iteration advances `start` by at least one line. -/
def chunkRangesGo (totalLines maxLines : ℕ) : ℕ → ℕ → List (ℕ × ℕ)
  | _start, 0 => []
  | start, Nat.succ fuel =>
    if start ≤ totalLines then
      let e := min totalLines (start + maxLines - 1)
      (start, e) :: chunkRangesGo totalLines maxLines (e + 1) fuel
    else []

/-- `_group_lines_by_boundaries` with `boundaries == []` (chunker.py lines
218-225). -/
def chunkRangesNoBounds (totalLines maxLines : ℕ) : List (ℕ × ℕ) :=
  chunkRangesGo totalLines maxLines 1 (totalLines + 1)

/-- The `for _, start, end in boundaries[1:]` loop plus the final append of
`_group_lines_by_boundaries` (chunker.py lines 227-236); the subtraction
`end - current_start` is compared over `ℤ` as in Python. -/
def groupLoop (totalLines maxLines : ℕ) :
    ℕ → ℕ → List (String × ℕ × ℕ) → List (ℕ × ℕ)
  | currentStart, currentEnd, [] => [(currentStart, min totalLines currentEnd)]
  | currentStart, currentEnd, (_, s, e) :: rest =>
    if (e : ℤ) - (currentStart : ℤ) ≥ (maxLines : ℤ) then
      (currentStart, currentEnd) :: groupLoop totalLines maxLines s e rest
    else
      groupLoop totalLines maxLines currentStart e rest

/-- `_group_lines_by_boundaries` (chunker.py lines 215-236).  A boundary is
`(symbol, start_line, end_line)` as produced by
`_detect_function_boundaries`; for file suffixes without a
`FUNCTION_PATTERNS` entry that function returns `[]` (chunker.py lines
195-197). -/
def group_lines_by_boundaries (boundaries : List (String × ℕ × ℕ))
    (totalLines maxLines : ℕ) : List (ℕ × ℕ) :=
  match boundaries with
  | [] => chunkRangesNoBounds totalLines maxLines
  | (_, s0, e0) :: rest => groupLoop totalLines maxLines s0 e0 rest

/-- The claim's per-chunk size requirement for an oversized file: every
produced line range spans at most `MAX_CHUNK_LINES` and at least
`MIN_CHUNK_LINES` lines. -/
def chunkSizesRespected (ranges : List (ℕ × ℕ)) : Prop :=
  ∀ r ∈ ranges, r.2 + 1 - r.1 ≤ MAX_CHUNK_LINES ∧ MIN_CHUNK_LINES ≤ r.2 + 1 - r.1

/-! ## Output path mapping (backend/conversion/manager.py lines 1218-1254) -/

/-- A relative path, split as pathlib sees it: directory components, the
file-name stem up to the first extension dot (so `stem` holds no `.`),
and the list of extension segments (`a.app.manifest` has stem `a` and
segments `[app, manifest]`).  `Path.suffix` is `.` + the last segment. -/
structure RelPath where
  dirs : List String
  stem : String
  ext : List String
deriving DecidableEq, Repr

/-- `Path.with_suffix(new)`: drops the last extension segment (if any) and
appends the segments of the new suffix. -/
def withSuffixSegs (p : RelPath) (newSegs : List String) : RelPath :=
  { p with ext := p.ext.dropLast ++ newSegs }

/-- The suffix remap table of `_mac_to_windows_path` (manager.py lines
1227-1236), with each target suffix split into extension segments. -/
def macWinSuffixMap : List (String × List String) :=
  [(".swift", ["cs"]), (".m", ["cs"]), (".mm", ["cs"]), (".xib", ["xaml"]),
   (".storyboard", ["xaml"]), (".strings", ["resx"]), (".plist", ["app", "manifest"]),
   (".xcassets", ["resources"])]

/-- The suffix remap table of `_windows_to_mac_path` (manager.py lines
1244-1249).  The `.app.manifest` key can never match: `Path.suffix` is
always a single dot-free segment, so the entry is dead in the source too. -/
def winMacSuffixMap : List (String × List String) :=
  [(".cs", ["swift"]), (".xaml", ["storyboard"]), (".resx", ["strings"]),
   (".app.manifest", ["plist"])]

/-- `ConversionManager._mac_to_windows_path` (manager.py lines 1226-1241).
A path without suffix hits `mapping.get(suffix, suffix)` with `''` and
`with_suffix('')`, a no-op.  For `.xcassets` the result is
`Path('Resources') / relative.with_suffix('')`. -/
def mac_to_windows_path (rel : RelPath) : RelPath :=
  match rel.ext.getLast? with
  | none => rel
  | some seg =>
    let suffix := "." ++ pyLower seg
    if suffix = ".xcassets" then
      { dirs := "Resources" :: rel.dirs, stem := rel.stem, ext := rel.ext.dropLast }
    else
      match macWinSuffixMap.lookup suffix with
      | some newSegs => withSuffixSegs rel newSegs
      | none => withSuffixSegs rel [pyLower seg]

/-- `ConversionManager._windows_to_mac_path` (manager.py lines 1243-1254).
For `.resx` the result is `Path('Localization') /
relative.with_suffix('.strings')`. -/
def windows_to_mac_path (rel : RelPath) : RelPath :=
  match rel.ext.getLast? with
  | none => rel
  | some seg =>
    let suffix := "." ++ pyLower seg
    if suffix = ".resx" then
      { dirs := "Localization" :: rel.dirs, stem := rel.stem,
        ext := rel.ext.dropLast ++ ["strings"] }
    else
      match winMacSuffixMap.lookup suffix with
      | some newSegs => withSuffixSegs rel newSegs
      | none => withSuffixSegs rel [pyLower seg]

/-- `ConversionManager._determine_output_path` (manager.py lines 1218-1224),
without the constant `target_path` prefix. -/
def determine_output_path (direction : String) (rel : RelPath) : RelPath :=
  if direction = "mac-to-win" then mac_to_windows_path rel else windows_to_mac_path rel

/-! ## `_process_chunk` success path (manager.py lines 903-995) -/

/-- Observable steps of the tail of `_process_chunk`, in program order. -/
inductive ProcEvent where
  | setStatus (s : ChunkStatus)
  | costUpdate (continueProcessing : Bool)
  | pauseSession
  | writeOutput
deriving DecidableEq, Repr

/-- Outcome of the `_process_chunk` tail: the record status left behind,
whether the chunk's output was written to its output path, and the
ordered event trace. -/
structure ProcOutcome where
  finalStatus : ChunkStatus
  outputWritten : Bool
  events : List ProcEvent
deriving DecidableEq, Repr

/-- The tail of `_process_chunk` after a successful completion call
(manager.py lines 929-995): the record status is assigned at line 930
(`COMPLETED` unless the model stopped early); `CostTracker.update` runs at
line 954; when it vetoes continuation the function pauses the session and
returns at line 976 — before any write; otherwise Code chunks are written
by `_assemble_file_if_ready` only when every sibling record is `COMPLETED`
with output present (`assembleReady`, lines 1256-1266), and non-Code
chunks are written directly (lines 988-995). -/
def process_chunk_tail (stoppedEarly costContinues isCodeStage assembleReady : Bool) :
    ProcOutcome :=
  let st := if stoppedEarly then ChunkStatus.inProgress else ChunkStatus.completed
  if costContinues = false then
    { finalStatus := st
      outputWritten := false
      events := [ProcEvent.setStatus st, ProcEvent.costUpdate false, ProcEvent.pauseSession] }
  else
    let written := if isCodeStage then assembleReady else true
    { finalStatus := st
      outputWritten := written
      events := [ProcEvent.setStatus st, ProcEvent.costUpdate true] ++
        (if written then [ProcEvent.writeOutput] else []) }

/-! ## Theorems -/

/-- Every stage weight is non-negative. -/
theorem STAGE_WEIGHTS_nonneg (s : Stage) : 0 ≤ STAGE_WEIGHTS s := by
  cases s <;> norm_num [STAGE_WEIGHTS]

/-- A stage's clamped completion ratio is non-negative. -/
theorem percentage_nonneg (p : StageProgress) : 0 ≤ p.percentage := by
  unfold StageProgress.percentage
  split
  · exact le_refl 0
  · exact le_min (by norm_num) (by positivity)

/-- A stage's clamped completion ratio is at most one. -/
theorem percentage_le_one (p : StageProgress) : p.percentage ≤ 1 := by
  unfold StageProgress.percentage
  split
  · norm_num
  · exact min_le_left _ _

/-- The weighted fold of `_overall_percentage` keeps a non-negative
accumulator non-negative. -/
theorem overallFold_nonneg (sp : Stage → Option StageProgress) :
    ∀ (l : List Stage) (acc : ℚ), 0 ≤ acc →
      0 ≤ l.foldl
        (fun acc stage =>
          match sp stage with
          | none => acc
          | some progress => acc + STAGE_WEIGHTS stage * progress.percentage)
        acc := by
  intro l
  induction l with
  | nil => intro acc h; simpa using h
  | cons s l ih =>
    intro acc h
    simp only [List.foldl_cons]
    apply ih
    cases hs : sp s with
    | none => simpa using h
    | some progress =>
      simp only []
      exact add_nonneg h (mul_nonneg (STAGE_WEIGHTS_nonneg s) (percentage_nonneg progress))

/-- The weighted fold of `_overall_percentage` adds at most the weights of
the folded stages to its accumulator. -/
theorem overallFold_le (sp : Stage → Option StageProgress) :
    ∀ (l : List Stage) (acc : ℚ),
      l.foldl
        (fun acc stage =>
          match sp stage with
          | none => acc
          | some progress => acc + STAGE_WEIGHTS stage * progress.percentage)
        acc ≤ acc + (l.map STAGE_WEIGHTS).sum := by
  intro l
  induction l with
  | nil => intro acc; simp
  | cons s l ih =>
    intro acc
    simp only [List.foldl_cons, List.map_cons, List.sum_cons]
    have hstep :
        (match sp s with
         | none => acc
         | some progress => acc + STAGE_WEIGHTS s * progress.percentage) ≤
          acc + STAGE_WEIGHTS s := by
      cases hs : sp s with
      | none =>
        have := STAGE_WEIGHTS_nonneg s
        simp only []
        linarith
      | some progress =>
        have h1 := mul_le_mul_of_nonneg_left (percentage_le_one progress)
          (STAGE_WEIGHTS_nonneg s)
        rw [mul_one] at h1
        simp only []
        exact add_le_add_left h1 acc
    calc _ ≤ (match sp s with
              | none => acc
              | some progress => acc + STAGE_WEIGHTS s * progress.percentage) +
             (l.map STAGE_WEIGHTS).sum := ih _
      _ ≤ acc + (STAGE_WEIGHTS s + (l.map STAGE_WEIGHTS).sum) := by linarith

/-- When every stage has `completed_units ≤ total_units`, the code's clamped
per-stage ratio agrees with the spec's unclamped ratio, so the two folds
agree. -/
theorem overallFold_eq_spec (sp : Stage → Option StageProgress)
    (hle : ∀ s p, sp s = some p → p.completedUnits ≤ p.totalUnits) :
    ∀ (l : List Stage) (acc : ℚ),
      l.foldl
        (fun acc stage =>
          match sp stage with
          | none => acc
          | some progress => acc + STAGE_WEIGHTS stage * progress.percentage)
        acc =
      l.foldl
        (fun acc stage =>
          match sp stage with
          | none => acc
          | some progress => acc + STAGE_WEIGHTS stage * specStageRatio progress)
        acc := by
  intro l
  induction l with
  | nil => intro acc; rfl
  | cons s l ih =>
    intro acc
    simp only [List.foldl_cons]
    have hstep :
        (match sp s with
         | none => acc
         | some progress => acc + STAGE_WEIGHTS s * progress.percentage) =
        (match sp s with
         | none => acc
         | some progress => acc + STAGE_WEIGHTS s * specStageRatio progress) := by
      cases hs : sp s with
      | none => rfl
      | some progress =>
        simp only []
        congr 1
        congr 1
        unfold StageProgress.percentage specStageRatio
        split
        · rfl
        · next ht =>
          refine min_eq_right ?_
          rw [div_le_one (by exact_mod_cast Nat.pos_of_ne_zero ht)]
          exact_mod_cast hle s progress hs
    rw [hstep, ih]

/-- C8: the fixed stage weights sum to exactly 1, and at every observation
point the reported overall percentage equals the spec's
`Σ stageWeight × stageCompletionRatio` formula and lies within `[0, 1]`.
The agreement with the unclamped spec formula holds whenever every stage
reports `completed_units ≤ total_units`, which is when the formula is
well-defined in the claim's sense. -/
theorem stage_weights_and_overall_bounds (sp : Stage → Option StageProgress)
    (hle : ∀ s p, sp s = some p → p.completedUnits ≤ p.totalUnits) :
    (STAGE_ORDER.map STAGE_WEIGHTS).sum = 1 ∧
    0 ≤ overall_percentage sp ∧ overall_percentage sp ≤ 1 ∧
    overall_percentage sp = specOverallFormula sp := by
  have hsum : (STAGE_ORDER.map STAGE_WEIGHTS).sum = 1 := by
    simp [STAGE_ORDER, STAGE_WEIGHTS]
    norm_num
  refine ⟨hsum, ?_, ?_, ?_⟩
  · unfold overall_percentage
    exact le_min (by norm_num) (overallFold_nonneg sp STAGE_ORDER 0 (le_refl 0))
  · exact min_le_left _ _
  · unfold overall_percentage specOverallFormula
    rw [overallFold_eq_spec sp hle]
    refine min_eq_right ?_
    calc STAGE_ORDER.foldl _ 0 = STAGE_ORDER.foldl _ 0 :=
          (overallFold_eq_spec sp hle STAGE_ORDER 0).symm
      _ ≤ 0 + (STAGE_ORDER.map STAGE_WEIGHTS).sum := overallFold_le sp STAGE_ORDER 0
      _ = 1 := by rw [hsum]; norm_num

/-- Witness for C8 at a concrete observation point. -/
theorem stage_weights_and_overall_bounds_witness :
    (STAGE_ORDER.map STAGE_WEIGHTS).sum = 1 ∧
    0 ≤ overall_percentage (fun _ => some ⟨3, 4, "running"⟩) ∧
    overall_percentage (fun _ => some ⟨3, 4, "running"⟩) ≤ 1 ∧
    overall_percentage (fun _ => some ⟨3, 4, "running"⟩) =
      specOverallFormula (fun _ => some ⟨3, 4, "running"⟩) :=
  stage_weights_and_overall_bounds (fun _ => some ⟨3, 4, "running"⟩)
    (by intro s p h; cases h; decide)

/-- C10: `complete_stage` unconditionally sets `completed_units :=
total_units` and status `completed`, so a stage whose run just finished —
even one whose chunks include `FAILED` records, which the run loop's
dispatch skips rather than re-runs — reports completion ratio 1 and
contributes its full weight to the overall percentage. -/
theorem complete_stage_full_weight (p : StageProgress) (h : 0 < p.totalUnits) :
    (complete_stage p).completedUnits = (complete_stage p).totalUnits ∧
    (complete_stage p).status = "completed" ∧
    (complete_stage p).percentage = 1 ∧
    (∀ s : Stage, STAGE_WEIGHTS s * (complete_stage p).percentage = STAGE_WEIGHTS s) ∧
    shouldProcess ChunkStatus.failed = false := by
  have hpct : (complete_stage p).percentage = 1 := by
    unfold complete_stage StageProgress.percentage
    simp only []
    rw [if_neg (Nat.pos_iff_ne_zero.mp h)]
    rw [div_self (by exact_mod_cast Nat.pos_iff_ne_zero.mp h)]
    simp
  exact ⟨rfl, rfl, hpct, fun s => by rw [hpct, mul_one], rfl⟩

/-- Witness for C10 on a stage with two units, one of them failed. -/
theorem complete_stage_full_weight_witness :
    (complete_stage ⟨1, 2, "running"⟩).completedUnits =
      (complete_stage ⟨1, 2, "running"⟩).totalUnits ∧
    (complete_stage ⟨1, 2, "running"⟩).status = "completed" ∧
    (complete_stage ⟨1, 2, "running"⟩).percentage = 1 ∧
    (∀ s : Stage, STAGE_WEIGHTS s * (complete_stage ⟨1, 2, "running"⟩).percentage =
      STAGE_WEIGHTS s) ∧
    shouldProcess ChunkStatus.failed = false :=
  complete_stage_full_weight ⟨1, 2, "running"⟩ (by decide)

/-- C3: the record's status is assigned `COMPLETED` (line 930 of manager.py)
before any output write, and on the budget-halt path (`continue_processing
= False`, return at line 976) the chunk ends `COMPLETED` with its output
never written — so the status flip is not conditioned on a successful
write, contradicting the spec's atomicity requirement. -/
theorem completed_status_precedes_write :
    (process_chunk_tail false false true true).finalStatus = ChunkStatus.completed ∧
    (process_chunk_tail false false true true).outputWritten = false ∧
    (∀ cc ic ar : Bool,
      (process_chunk_tail false cc ic ar).events.take 1 =
        [ProcEvent.setStatus ChunkStatus.completed]) := by
  refine ⟨rfl, rfl, ?_⟩
  decide

/-- `CostTracker.update` always accumulates the additional cost into the
session's running total. -/
theorem update_totalCost (s : CostSettings) (st : CostState) (c : ℚ) :
    ((CostTracker.update s st c).2).totalCost = st.totalCost + c := by
  unfold CostTracker.update
  dsimp only
  repeat' split
  all_goals rfl

/-- `CostTracker.update` never changes the stored budget. -/
theorem update_maxBudget (s : CostSettings) (st : CostState) (c : ℚ) :
    ((CostTracker.update s st c).2).maxBudget = st.maxBudget := by
  unfold CostTracker.update
  dsimp only
  repeat' split
  all_goals rfl

/-- With budget tracking enabled and a positive budget, `CostTracker.update`
returns `continue_processing = False` exactly when the new cumulative
spend reaches the budget (spend/budget ≥ 1). -/
theorem update_continue_false_iff (s : CostSettings) (st : CostState) (c : ℚ)
    (hen : s.enabled = true) (hB : 0 < st.maxBudget) :
    (((CostTracker.update s st c).1).continueProcessing = false ↔
      st.maxBudget ≤ st.totalCost + c) := by
  unfold CostTracker.update
  dsimp only
  have hpc : (if s.enabled = true ∧ st.maxBudget > 0
      then min ((st.totalCost + c) / st.maxBudget) 10 else 0) =
      min ((st.totalCost + c) / st.maxBudget) 10 := if_pos ⟨hen, hB⟩
  rw [hpc]
  by_cases hge : st.maxBudget ≤ st.totalCost + c
  · rw [if_pos ⟨hen, hB, le_min ((one_le_div hB).mpr hge) (by norm_num)⟩]
    simpa using hge
  · have hnot : ¬(s.enabled = true ∧ st.maxBudget > 0 ∧
        min ((st.totalCost + c) / st.maxBudget) 10 ≥ 1) := by
      rintro ⟨-, -, hmin⟩
      exact hge ((one_le_div hB).mp (le_trans hmin (min_le_left _ _)))
    rw [if_neg hnot]
    split
    · split
      · simp [hge]
      · simp [hge]
    · simp [hge]

/-- The run loop halts exactly at the first processed chunk whose cumulative
cost reaches the budget, generalized over the tracker state the stage
starts from. -/
theorem runStage_halt_aux (settings : CostSettings) (hen : settings.enabled = true) :
    ∀ (records : List ChunkRec) (state : CostState) (i : ℕ),
      0 < state.maxBudget →
      (∀ r ∈ records, shouldProcess r.status = true) →
      i < records.length →
      (∀ j, j < i →
        state.totalCost + (((records.take (j+1)).map ChunkRec.costUsd).sum) <
          state.maxBudget) →
      state.maxBudget ≤
        state.totalCost + (((records.take (i+1)).map ChunkRec.costUsd).sum) →
      (runStage settings state records).1 = (records.take (i+1)).map ChunkRec.chunkId ∧
      (runStage settings state records).2.2 = true ∧
      (runStage settings state records).2.1.totalCost =
        state.totalCost + (((records.take (i+1)).map ChunkRec.costUsd).sum) := by
  intro records
  induction records with
  | nil =>
    intro state i hB hall hi hlt hge
    simp at hi
  | cons r rest ih =>
    intro state i hB hall hi hlt hge
    have hr : shouldProcess r.status = true := hall r (List.mem_cons_self r rest)
    rcases hu : CostTracker.update settings state r.costUsd with ⟨upd, st'⟩
    have hst'Total : st'.totalCost = state.totalCost + r.costUsd := by
      have := update_totalCost settings state r.costUsd
      rw [hu] at this
      exact this
    have hst'Budget : st'.maxBudget = state.maxBudget := by
      have := update_maxBudget settings state r.costUsd
      rw [hu] at this
      exact this
    have hiff := update_continue_false_iff settings state r.costUsd hen hB
    rw [hu] at hiff
    cases i with
    | zero =>
      have hge0 : state.maxBudget ≤ state.totalCost + r.costUsd := by
        simpa using hge
      have hcont : upd.continueProcessing = false := hiff.mpr hge0
      simp only [runStage, hr, if_true, hu, hcont]
      refine ⟨by simp, rfl, ?_⟩
      simp [hst'Total]
    | succ j =>
      have hlt0 : state.totalCost + r.costUsd < state.maxBudget := by
        have := hlt 0 (Nat.succ_pos j)
        simpa using this
      have hcont : upd.continueProcessing = true := by
        cases hcp : upd.continueProcessing with
        | false => exact absurd (hiff.mp hcp) (not_le.mpr hlt0)
        | true => rfl
      have hrec := ih st' j (by rw [hst'Budget]; exact hB)
        (fun x hx => hall x (List.mem_cons_of_mem r hx))
        (by simpa using Nat.lt_of_succ_lt_succ hi)
        (by
          intro j' hj'
          have := hlt (j' + 1) (Nat.succ_lt_succ hj')
          rw [hst'Total, hst'Budget]
          simpa [List.take_succ_cons, add_assoc] using this)
        (by
          rw [hst'Total, hst'Budget]
          simpa [List.take_succ_cons, add_assoc] using hge)
      rcases hrun : runStage settings st' rest with ⟨ids, finalState, paused⟩
      simp only [hrun] at hrec
      simp only [runStage, hr, hu, hcont, hrun, if_true]
      refine ⟨?_, hrec.2.1, ?_⟩
      · simp [hrec.1, List.take_succ_cons]
      · rw [hrec.2.2, hst'Total]
        simp [List.take_succ_cons, add_assoc]

/-- C2: with budget tracking enabled and budget `B > 0`, a run over processable
chunks pauses exactly at the chunk whose cumulative cost first reaches `B`:
precisely the chunks up to and including that one are handed to
`_process_chunk` (the halting `CostTracker.update` returns
`continue_processing = False` there), the paused flag is set, and the spend
at the halt equals that prefix's total cost. -/
theorem cost_limit_halts_at_first_reaching_chunk
    (settings : CostSettings) (records : List ChunkRec) (i : ℕ)
    (hen : settings.enabled = true)
    (hB : 0 < settings.maxBudgetUsd)
    (hall : ∀ r ∈ records, shouldProcess r.status = true)
    (hi : i < records.length)
    (hlt : ∀ j, j < i →
      (((records.take (j+1)).map ChunkRec.costUsd).sum) < settings.maxBudgetUsd)
    (hge : settings.maxBudgetUsd ≤ (((records.take (i+1)).map ChunkRec.costUsd).sum)) :
    (runStage settings (CostTracker.start settings) records).1 =
      (records.take (i+1)).map ChunkRec.chunkId ∧
    (runStage settings (CostTracker.start settings) records).2.2 = true ∧
    (runStage settings (CostTracker.start settings) records).2.1.totalCost =
      ((records.take (i+1)).map ChunkRec.costUsd).sum := by
  have hstartB : (CostTracker.start settings).maxBudget = settings.maxBudgetUsd := by
    unfold CostTracker.start
    exact max_eq_left hB.le
  have hstartT : (CostTracker.start settings).totalCost = 0 := rfl
  have := runStage_halt_aux settings hen records (CostTracker.start settings) i
    (by rw [hstartB]; exact hB) hall hi
    (by intro j hj; rw [hstartB, hstartT]; simpa using hlt j hj)
    (by rw [hstartB, hstartT]; simpa using hge)
  refine ⟨this.1, this.2.1, ?_⟩
  rw [this.2.2, hstartT, zero_add]

/-- Witness for C2: budget 10, four pending chunks costing 4 each; the run
pauses at the third chunk (cumulative cost 12 ≥ 10) and the fourth is
never attempted. -/
theorem cost_limit_halts_witness :
    (runStage ⟨true, 10, 8/10, false, none, none⟩
      (CostTracker.start ⟨true, 10, 8/10, false, none, none⟩)
      [⟨"c1", Stage.code, ChunkStatus.pending, 4, "f1", none⟩,
       ⟨"c2", Stage.code, ChunkStatus.pending, 4, "f2", none⟩,
       ⟨"c3", Stage.code, ChunkStatus.pending, 4, "f3", none⟩,
       ⟨"c4", Stage.code, ChunkStatus.pending, 4, "f4", none⟩]).1 =
      (([⟨"c1", Stage.code, ChunkStatus.pending, 4, "f1", none⟩,
         ⟨"c2", Stage.code, ChunkStatus.pending, 4, "f2", none⟩,
         ⟨"c3", Stage.code, ChunkStatus.pending, 4, "f3", none⟩,
         ⟨"c4", Stage.code, ChunkStatus.pending, 4, "f4", none⟩] :
        List ChunkRec).take 3).map ChunkRec.chunkId ∧
    (runStage ⟨true, 10, 8/10, false, none, none⟩
      (CostTracker.start ⟨true, 10, 8/10, false, none, none⟩)
      [⟨"c1", Stage.code, ChunkStatus.pending, 4, "f1", none⟩,
       ⟨"c2", Stage.code, ChunkStatus.pending, 4, "f2", none⟩,
       ⟨"c3", Stage.code, ChunkStatus.pending, 4, "f3", none⟩,
       ⟨"c4", Stage.code, ChunkStatus.pending, 4, "f4", none⟩]).2.2 = true ∧
    (runStage ⟨true, 10, 8/10, false, none, none⟩
      (CostTracker.start ⟨true, 10, 8/10, false, none, none⟩)
      [⟨"c1", Stage.code, ChunkStatus.pending, 4, "f1", none⟩,
       ⟨"c2", Stage.code, ChunkStatus.pending, 4, "f2", none⟩,
       ⟨"c3", Stage.code, ChunkStatus.pending, 4, "f3", none⟩,
       ⟨"c4", Stage.code, ChunkStatus.pending, 4, "f4", none⟩]).2.1.totalCost =
      ((([⟨"c1", Stage.code, ChunkStatus.pending, 4, "f1", none⟩,
          ⟨"c2", Stage.code, ChunkStatus.pending, 4, "f2", none⟩,
          ⟨"c3", Stage.code, ChunkStatus.pending, 4, "f3", none⟩,
          ⟨"c4", Stage.code, ChunkStatus.pending, 4, "f4", none⟩] :
        List ChunkRec).take 3).map ChunkRec.costUsd).sum :=
  cost_limit_halts_at_first_reaching_chunk
    ⟨true, 10, 8/10, false, none, none⟩
    [⟨"c1", Stage.code, ChunkStatus.pending, 4, "f1", none⟩,
     ⟨"c2", Stage.code, ChunkStatus.pending, 4, "f2", none⟩,
     ⟨"c3", Stage.code, ChunkStatus.pending, 4, "f3", none⟩,
     ⟨"c4", Stage.code, ChunkStatus.pending, 4, "f4", none⟩]
    2 rfl (by norm_num) (by decide) (by decide)
    (by
      intro j hj
      interval_cases j <;>
        norm_num [List.take_succ_cons, List.take_zero, List.map_cons, List.map_nil,
          List.sum_cons, List.sum_nil])
    (by
      norm_num [List.take_succ_cons, List.take_zero, List.map_cons, List.map_nil,
        List.sum_cons, List.sum_nil])

/-- With budget tracking disabled, `CostTracker.update` always allows
processing to continue. -/
theorem update_continue_of_disabled (s : CostSettings) (st : CostState) (c : ℚ)
    (hen : s.enabled = false) :
    ((CostTracker.update s st c).1).continueProcessing = true := by
  unfold CostTracker.update
  dsimp only
  repeat' split
  all_goals simp_all

/-- With budget tracking disabled, the run loop walks the whole stage and
hands exactly the dispatchable records to `_process_chunk`. -/
theorem runStage_no_budget (settings : CostSettings) (hen : settings.enabled = false) :
    ∀ (records : List ChunkRec) (state : CostState),
      (runStage settings state records).1 =
        (records.filter (fun r => shouldProcess r.status)).map ChunkRec.chunkId := by
  intro records
  induction records with
  | nil => intro state; simp [runStage]
  | cons r rest ih =>
    intro state
    cases hr : shouldProcess r.status with
    | false =>
      have hih := ih state
      simp [runStage, hr, hih, List.filter_cons]
    | true =>
      rcases hu : CostTracker.update settings state r.costUsd with ⟨upd, st'⟩
      have hcont : upd.continueProcessing = true := by
        have := update_continue_of_disabled settings state r.costUsd hen
        rw [hu] at this
        exact this
      rcases hrun : runStage settings st' rest with ⟨ids, finalState, paused⟩
      have hih := ih st'
      simp only [hrun] at hih
      simp [runStage, hr, hu, hcont, hrun, hih, List.filter_cons]

/-- Every chunk id the run loop hands to `_process_chunk` belongs to a record
whose status passed the dispatch filter, whatever the budget does. -/
theorem runStage_fst_mem (settings : CostSettings) :
    ∀ (records : List ChunkRec) (state : CostState) (cid : String),
      cid ∈ (runStage settings state records).1 →
      ∃ r, r ∈ records ∧ r.chunkId = cid ∧ shouldProcess r.status = true := by
  intro records
  induction records with
  | nil => intro state cid h; simp [runStage] at h
  | cons r rest ih =>
    intro state cid h
    cases hr : shouldProcess r.status with
    | false =>
      simp only [runStage, hr, Bool.false_eq_true, if_false] at h
      obtain ⟨r', hmem, hid, hproc⟩ := ih state cid h
      exact ⟨r', List.mem_cons_of_mem r hmem, hid, hproc⟩
    | true =>
      rcases hu : CostTracker.update settings state r.costUsd with ⟨upd, st'⟩
      simp only [runStage, hr, hu, if_true] at h
      cases hcont : upd.continueProcessing with
      | true =>
        rw [hcont] at h
        rcases hrun : runStage settings st' rest with ⟨ids, finalState, paused⟩
        rw [hrun] at h
        simp only [if_true] at h
        rcases List.mem_cons.mp h with heq | hmem
        · exact ⟨r, List.mem_cons_self r rest, heq.symm, hr⟩
        · obtain ⟨r', hmem', hid, hproc⟩ := by
            apply ih st' cid
            rw [hrun]
            exact hmem
          exact ⟨r', List.mem_cons_of_mem r hmem', hid, hproc⟩
      | false =>
        rw [hcont] at h
        simp only [Bool.false_eq_true, if_false] at h
        rcases List.mem_singleton.mp h with heq
        exact ⟨r, List.mem_cons_self r rest, heq.symm, hr⟩

/-- `_mark_skipped_chunks` never changes a record's chunk id. -/
theorem markSkippedRecord_chunkId (cache fs : String → Option String) (r : ChunkRec) :
    (markSkippedRecord cache fs r).chunkId = r.chunkId := by
  unfold markSkippedRecord
  dsimp only
  repeat' split
  all_goals rfl

/-- C1 (counterexample): a persisted session whose only chunk was saved as
`FAILED` is restored at that status, and the re-entered run loop hands no
chunk at all to `_process_chunk` — the `FAILED` chunk is not reprocessed,
contradicting the claim that Pending and Failed chunks are reprocessed. -/
theorem failed_chunk_not_reprocessed_on_resume :
    (resumeRecords [("chunk-1", ChunkStatus.failed)]
      [⟨"chunk-1", Stage.code, ChunkStatus.pending, 1, "f", none⟩]).map ChunkRec.status =
      [ChunkStatus.failed] ∧
    (runStage ⟨false, 0, 8/10, false, none, none⟩
      (CostTracker.start ⟨false, 0, 8/10, false, none, none⟩)
      (resumeRecords [("chunk-1", ChunkStatus.failed)]
        [⟨"chunk-1", Stage.code, ChunkStatus.pending, 1, "f", none⟩])).1 = [] := by
  decide

/-- C1 (amended): after `resume_failed_session` restores every chunk to its
last-known status, the re-entered run loop hands to `_process_chunk`
exactly the chunks whose restored status is `PENDING` or `IN_PROGRESS`;
chunks restored as `COMPLETED`, `SKIPPED` — and, contrary to the original
claim, also `FAILED` — are all left untouched (never dispatched, so their
on-disk outputs are not rewritten).  Budget tracking is off so the
traversal is not cut short by a cost halt. -/
theorem resume_reprocesses_only_pending_and_in_progress
    (settings : CostSettings) (hen : settings.enabled = false) (state : CostState)
    (saved : List (String × ChunkStatus)) (records : List ChunkRec) :
    (runStage settings state (resumeRecords saved records)).1 =
      ((resumeRecords saved records).filter
        (fun r => shouldProcess r.status)).map ChunkRec.chunkId ∧
    (∀ st : ChunkStatus,
      shouldProcess st = true ↔
        (st = ChunkStatus.pending ∨ st = ChunkStatus.inProgress)) ∧
    (∀ r ∈ records,
      (resumeRecord saved r).status = (saved.lookup r.chunkId).getD r.status) := by
  refine ⟨runStage_no_budget settings hen (resumeRecords saved records) state, ?_, ?_⟩
  · intro st
    cases st <;> simp [shouldProcess]
  · intro r _
    unfold resumeRecord
    cases h : saved.lookup r.chunkId <;> simp [h]

/-- Witness for C1's amended theorem: one completed, one failed, one pending
chunk — only the pending chunk is dispatched. -/
theorem resume_reprocesses_witness :
    (runStage ⟨false, 0, 8/10, false, none, none⟩
      (CostTracker.start ⟨false, 0, 8/10, false, none, none⟩)
      (resumeRecords [("a", ChunkStatus.completed), ("b", ChunkStatus.failed)]
        [⟨"a", Stage.code, ChunkStatus.pending, 0, "fa", none⟩,
         ⟨"b", Stage.code, ChunkStatus.pending, 0, "fb", none⟩,
         ⟨"c", Stage.code, ChunkStatus.pending, 0, "fc", none⟩])).1 =
      ((resumeRecords [("a", ChunkStatus.completed), ("b", ChunkStatus.failed)]
        [⟨"a", Stage.code, ChunkStatus.pending, 0, "fa", none⟩,
         ⟨"b", Stage.code, ChunkStatus.pending, 0, "fb", none⟩,
         ⟨"c", Stage.code, ChunkStatus.pending, 0, "fc", none⟩]).filter
        (fun r => shouldProcess r.status)).map ChunkRec.chunkId ∧
    (∀ st : ChunkStatus,
      shouldProcess st = true ↔
        (st = ChunkStatus.pending ∨ st = ChunkStatus.inProgress)) ∧
    (∀ r ∈ ([⟨"a", Stage.code, ChunkStatus.pending, 0, "fa", none⟩,
             ⟨"b", Stage.code, ChunkStatus.pending, 0, "fb", none⟩,
             ⟨"c", Stage.code, ChunkStatus.pending, 0, "fc", none⟩] : List ChunkRec),
      (resumeRecord [("a", ChunkStatus.completed), ("b", ChunkStatus.failed)] r).status =
        (([("a", ChunkStatus.completed), ("b", ChunkStatus.failed)] :
          List (String × ChunkStatus)).lookup r.chunkId).getD r.status) :=
  resume_reprocesses_only_pending_and_in_progress
    ⟨false, 0, 8/10, false, none, none⟩ rfl
    (CostTracker.start ⟨false, 0, 8/10, false, none, none⟩)
    [("a", ChunkStatus.completed), ("b", ChunkStatus.failed)]
    [⟨"a", Stage.code, ChunkStatus.pending, 0, "fa", none⟩,
     ⟨"b", Stage.code, ChunkStatus.pending, 0, "fb", none⟩,
     ⟨"c", Stage.code, ChunkStatus.pending, 0, "fc", none⟩]

/-- C5: in an incremental session, `_mark_skipped_chunks` (which runs at
session start, before the run loop) marks every Code chunk whose file
checksum equals the cached checksum as `SKIPPED`, and no such chunk is
ever handed to `_process_chunk` (hence the completion service is never
invoked for it); a chunk with no cache entry counts as changed and keeps
its status. -/
theorem incremental_unchanged_chunks_skipped
    (cache fs : String → Option String) (settings : CostSettings) (state : CostState)
    (records : List ChunkRec)
    (hnodup : ((mark_skipped_chunks cache fs records).map ChunkRec.chunkId).Nodup) :
    (∀ r ∈ records, ∀ c, r.stage = Stage.code → fs r.filePath = some c →
      cache r.filePath = some c →
        (markSkippedRecord cache fs r).status = ChunkStatus.skipped ∧
        (markSkippedRecord cache fs r).chunkId ∉
          (runStage settings state (mark_skipped_chunks cache fs records)).1) ∧
    (∀ r ∈ records, ∀ c, r.stage = Stage.code → fs r.filePath = some c →
      cache r.filePath = none →
        (markSkippedRecord cache fs r).status = r.status) := by
  constructor
  · intro r hr c hstage hfs hcache
    have hskip : (markSkippedRecord cache fs r).status = ChunkStatus.skipped := by
      unfold markSkippedRecord
      rw [if_neg (by simp [hstage]), hfs]
      dsimp only
      rw [if_neg (by simp [is_changed, hcache])]
    refine ⟨hskip, ?_⟩
    intro hmem
    obtain ⟨r', hmem', hid, hproc⟩ :=
      runStage_fst_mem settings (mark_skipped_chunks cache fs records) state _ hmem
    have hmarked : markSkippedRecord cache fs r ∈ mark_skipped_chunks cache fs records :=
      List.mem_map_of_mem (markSkippedRecord cache fs) hr
    have heq : r' = markSkippedRecord cache fs r :=
      List.inj_on_of_nodup_map hnodup hmem' hmarked hid
    rw [heq, hskip] at hproc
    simp [shouldProcess] at hproc
  · intro r hr c hstage hfs hcache
    unfold markSkippedRecord
    rw [if_neg (by simp [hstage]), hfs]
    dsimp only
    rw [if_pos (by simp [is_changed, hcache])]

/-- Witness for C5: chunk `c1`'s file checksum matches the cache, so it is
pre-marked `SKIPPED` and never dispatched; chunk `c2` has no cache entry,
counts as changed, and keeps its `PENDING` status. -/
theorem incremental_unchanged_chunks_skipped_witness :
    (markSkippedRecord (fun p => if p = "f1" then some "aaa" else none)
      (fun p => if p = "f1" then some "aaa" else if p = "f2" then some "bbb" else none)
      ⟨"c1", Stage.code, ChunkStatus.pending, 0, "f1", none⟩).status =
        ChunkStatus.skipped ∧
    (markSkippedRecord (fun p => if p = "f1" then some "aaa" else none)
      (fun p => if p = "f1" then some "aaa" else if p = "f2" then some "bbb" else none)
      ⟨"c1", Stage.code, ChunkStatus.pending, 0, "f1", none⟩).chunkId ∉
      (runStage ⟨false, 0, 8/10, false, none, none⟩
        (CostTracker.start ⟨false, 0, 8/10, false, none, none⟩)
        (mark_skipped_chunks (fun p => if p = "f1" then some "aaa" else none)
          (fun p => if p = "f1" then some "aaa" else if p = "f2" then some "bbb" else none)
          [⟨"c1", Stage.code, ChunkStatus.pending, 0, "f1", none⟩,
           ⟨"c2", Stage.code, ChunkStatus.pending, 0, "f2", none⟩])).1 ∧
    (markSkippedRecord (fun p => if p = "f1" then some "aaa" else none)
      (fun p => if p = "f1" then some "aaa" else if p = "f2" then some "bbb" else none)
      ⟨"c2", Stage.code, ChunkStatus.pending, 0, "f2", none⟩).status =
        ChunkStatus.pending := by
  have h := incremental_unchanged_chunks_skipped
    (fun p => if p = "f1" then some "aaa" else none)
    (fun p => if p = "f1" then some "aaa" else if p = "f2" then some "bbb" else none)
    ⟨false, 0, 8/10, false, none, none⟩
    (CostTracker.start ⟨false, 0, 8/10, false, none, none⟩)
    [⟨"c1", Stage.code, ChunkStatus.pending, 0, "f1", none⟩,
     ⟨"c2", Stage.code, ChunkStatus.pending, 0, "f2", none⟩]
    (by decide)
  have h1 := h.1 ⟨"c1", Stage.code, ChunkStatus.pending, 0, "f1", none⟩
    (by decide) "aaa" rfl (by decide) (by decide)
  have h2 := h.2 ⟨"c2", Stage.code, ChunkStatus.pending, 0, "f2", none⟩
    (by decide) "bbb" rfl (by decide) (by decide)
  exact ⟨h1.1, h1.2, h2⟩

/-- C7 (counterexample): chunking a 121-line file of a language with no
`FUNCTION_PATTERNS` entry (empty boundary list) leaves a final 1-line
chunk, far below `MIN_CHUNK_LINES = 30`; and a file whose first detected
declaration spans 200 lines produces a 200-line chunk, above
`MAX_CHUNK_LINES = 120` — so the claimed size bounds fail. -/
theorem chunk_size_bounds_counterexample :
    group_lines_by_boundaries [] 121 MAX_CHUNK_LINES = [(1, 120), (121, 121)] ∧
    ¬ chunkSizesRespected (group_lines_by_boundaries [] 121 MAX_CHUNK_LINES) ∧
    group_lines_by_boundaries [("f", 1, 200), ("g", 201, 250)] 250 MAX_CHUNK_LINES =
      [(1, 200), (201, 250)] ∧
    ¬ chunkSizesRespected
      (group_lines_by_boundaries [("f", 1, 200), ("g", 201, 250)] 250 MAX_CHUNK_LINES) := by
  refine ⟨by decide, ?_, by decide, ?_⟩
  · intro h
    have := (h (121, 121) (by decide)).2
    simp [MIN_CHUNK_LINES] at this
  · intro h
    have := (h (1, 200) (by decide)).1
    simp [MAX_CHUNK_LINES] at this

/-- Without declaration boundaries, every chunk range the grouping loop emits
is well-formed and spans at most `max_lines` lines. -/
theorem chunkRangesGo_bounds (totalLines maxLines : ℕ) (hmax : 1 ≤ maxLines) :
    ∀ (fuel start : ℕ), ∀ r ∈ chunkRangesGo totalLines maxLines start fuel,
      r.1 ≤ r.2 ∧ r.2 + 1 - r.1 ≤ maxLines := by
  intro fuel
  induction fuel with
  | zero => intro start r hr; simp [chunkRangesGo] at hr
  | succ fuel ih =>
    intro start r hr
    by_cases hs : start ≤ totalLines
    · rw [chunkRangesGo, if_pos hs] at hr
      rcases List.mem_cons.mp hr with heq | hmem
      · subst heq
        constructor
        · exact le_min hs (by omega)
        · have h1 : min totalLines (start + maxLines - 1) ≤ start + maxLines - 1 :=
            min_le_right _ _
          omega
      · exact ih _ r hmem
    · rw [chunkRangesGo, if_neg hs] at hr
      simp at hr

/-- Every range the boundary-grouping loop emits starts at the running
declaration start and ends at a declaration end (the final one clamped to
the file's last line). -/
theorem groupLoop_aligned (totalLines maxLines : ℕ) :
    ∀ (bs : List (String × ℕ × ℕ)) (cs ce : ℕ),
      ∀ r ∈ groupLoop totalLines maxLines cs ce bs,
        (r.1 = cs ∨ r.1 ∈ bs.map (fun b => b.2.1)) ∧
        (∃ e, (e = ce ∨ e ∈ bs.map (fun b => b.2.2)) ∧
          (r.2 = e ∨ r.2 = min totalLines e)) := by
  intro bs
  induction bs with
  | nil =>
    intro cs ce r hr
    simp only [groupLoop, List.mem_singleton] at hr
    subst hr
    exact ⟨Or.inl rfl, ⟨ce, Or.inl rfl, Or.inr rfl⟩⟩
  | cons b rest ih =>
    intro cs ce r hr
    rcases b with ⟨sym, s, e⟩
    rw [groupLoop] at hr
    split at hr
    · rcases List.mem_cons.mp hr with heq | hmem
      · subst heq
        exact ⟨Or.inl rfl, ⟨ce, Or.inl rfl, Or.inl rfl⟩⟩
      · obtain ⟨h1, e', he', h2⟩ := ih s e r hmem
        refine ⟨?_, ⟨e', ?_, h2⟩⟩
        · rcases h1 with h1 | h1
          · exact Or.inr (by simp only [List.map_cons]; exact h1 ▸ List.mem_cons_self _ _)
          · exact Or.inr (by simp only [List.map_cons]; exact List.mem_cons_of_mem _ h1)
        · rcases he' with he' | he'
          · exact Or.inr (by simp only [List.map_cons]; exact he' ▸ List.mem_cons_self _ _)
          · exact Or.inr (by simp only [List.map_cons]; exact List.mem_cons_of_mem _ he')
    · obtain ⟨h1, e', he', h2⟩ := ih cs e r hr
      refine ⟨?_, ⟨e', ?_, h2⟩⟩
      · rcases h1 with h1 | h1
        · exact Or.inl h1
        · exact Or.inr (by simp only [List.map_cons]; exact List.mem_cons_of_mem _ h1)
      · rcases he' with he' | he'
        · exact Or.inr (by simp only [List.map_cons]; exact he' ▸ List.mem_cons_self _ _)
        · exact Or.inr (by simp only [List.map_cons]; exact List.mem_cons_of_mem _ he')

/-- C7 (amended): for oversized files, when no declaration boundaries are
detected the chunk ranges span at most `max_lines` lines each (only the
final range may fall below `MIN_CHUNK_LINES`, which the code never
enforces); when boundaries are detected, every chunk starts at a detected
declaration start and ends at a declaration end (the last clamped to the
file's final line) — so no chunk boundary splits a declaration's interior
— but a declaration longer than `max_lines` makes its chunk exceed the
maximum. -/
theorem split_chunk_ranges_amended (totalLines maxLines : ℕ) (hmax : 1 ≤ maxLines) :
    (∀ r ∈ chunkRangesNoBounds totalLines maxLines,
      r.1 ≤ r.2 ∧ r.2 + 1 - r.1 ≤ maxLines) ∧
    (∀ (sym : String) (s0 e0 : ℕ) (rest : List (String × ℕ × ℕ)),
      ∀ r ∈ group_lines_by_boundaries ((sym, s0, e0) :: rest) totalLines maxLines,
        (r.1 = s0 ∨ r.1 ∈ rest.map (fun b => b.2.1)) ∧
        (∃ e, (e = e0 ∨ e ∈ rest.map (fun b => b.2.2)) ∧
          (r.2 = e ∨ r.2 = min totalLines e))) := by
  constructor
  · intro r hr
    exact chunkRangesGo_bounds totalLines maxLines hmax _ 1 r hr
  · intro sym s0 e0 rest r hr
    exact groupLoop_aligned totalLines maxLines rest s0 e0 r hr

/-- Witness for C7's amended theorem: the 121-line no-boundary file and a
two-declaration file. -/
theorem split_chunk_ranges_amended_witness :
    (∀ r ∈ chunkRangesNoBounds 121 120, r.1 ≤ r.2 ∧ r.2 + 1 - r.1 ≤ 120) ∧
    (∀ (sym : String) (s0 e0 : ℕ) (rest : List (String × ℕ × ℕ)),
      ∀ r ∈ group_lines_by_boundaries ((sym, s0, e0) :: rest) 121 120,
        (r.1 = s0 ∨ r.1 ∈ rest.map (fun b => b.2.1)) ∧
        (∃ e, (e = e0 ∨ e ∈ rest.map (fun b => b.2.2)) ∧
          (r.2 = e ∨ r.2 = min 121 e))) :=
  split_chunk_ranges_amended 121 120 (by decide)

/-- C9 (counterexample): the mac→win suffix remap is not one-to-one —
distinct source extensions `.swift` and `.m` both map to `.cs`; and it is
not idempotent on every already-remapped path either: a `.xcassets` path
with an inner `.swift` extension changes again on the second application. -/
theorem suffix_remap_counterexample :
    mac_to_windows_path ⟨[], "a", ["swift"]⟩ = ⟨[], "a", ["cs"]⟩ ∧
    mac_to_windows_path ⟨[], "a", ["m"]⟩ = ⟨[], "a", ["cs"]⟩ ∧
    (⟨[], "a", ["swift"]⟩ : RelPath) ≠ ⟨[], "a", ["m"]⟩ ∧
    mac_to_windows_path (mac_to_windows_path ⟨[], "a", ["swift", "xcassets"]⟩) ≠
      mac_to_windows_path ⟨[], "a", ["swift", "xcassets"]⟩ := by
  decide

/-- `_mac_to_windows_path` is idempotent on paths with a single, lowercase
extension. -/
theorem mac_to_windows_path_idem (dirs : List String) (stem seg : String)
    (hseg : pyLower seg = seg) :
    mac_to_windows_path (mac_to_windows_path ⟨dirs, stem, [seg]⟩) =
      mac_to_windows_path ⟨dirs, stem, [seg]⟩ := by
  by_cases hx : ("." ++ seg) = ".xcassets"
  · have hp : mac_to_windows_path ⟨dirs, stem, [seg]⟩ = ⟨"Resources" :: dirs, stem, []⟩ := by
      unfold mac_to_windows_path
      simp only [List.getLast?_singleton, hseg]
      rw [if_pos hx]
      rfl
    rw [hp]
    rfl
  · cases hlk : macWinSuffixMap.lookup ("." ++ seg) with
    | none =>
      have hp : mac_to_windows_path ⟨dirs, stem, [seg]⟩ = ⟨dirs, stem, [seg]⟩ := by
        unfold mac_to_windows_path
        simp only [List.getLast?_singleton, hseg]
        rw [if_neg hx, hlk]
        rfl
      rw [hp, hp]
    | some v =>
      have hmem : (("." ++ seg), v) ∈ macWinSuffixMap := by
        obtain ⟨l₁, l₂, heq, -⟩ := List.lookup_eq_some_iff.mp hlk
        rw [heq]
        exact List.mem_append_right _ (List.mem_cons_self _ _)
      have hp : mac_to_windows_path ⟨dirs, stem, [seg]⟩ = ⟨dirs, stem, v⟩ := by
        unfold mac_to_windows_path
        simp only [List.getLast?_singleton, hseg]
        rw [if_neg hx, hlk]
        rfl
      rw [hp]
      simp only [macWinSuffixMap, List.mem_cons, List.not_mem_nil, or_false,
        Prod.mk.injEq] at hmem
      rcases hmem with ⟨hk, hv⟩ | ⟨hk, hv⟩ | ⟨hk, hv⟩ | ⟨hk, hv⟩ | ⟨hk, hv⟩ |
        ⟨hk, hv⟩ | ⟨hk, hv⟩ | ⟨hk, hv⟩
      all_goals first
        | exact absurd hk hx
        | (subst hv; rfl)

/-- `_windows_to_mac_path` is idempotent on paths with a single, lowercase
extension. -/
theorem windows_to_mac_path_idem (dirs : List String) (stem seg : String)
    (hseg : pyLower seg = seg) :
    windows_to_mac_path (windows_to_mac_path ⟨dirs, stem, [seg]⟩) =
      windows_to_mac_path ⟨dirs, stem, [seg]⟩ := by
  by_cases hx : ("." ++ seg) = ".resx"
  · have hp : windows_to_mac_path ⟨dirs, stem, [seg]⟩ =
        ⟨"Localization" :: dirs, stem, ["strings"]⟩ := by
      unfold windows_to_mac_path
      simp only [List.getLast?_singleton, hseg]
      rw [if_pos hx]
      rfl
    rw [hp]
    rfl
  · cases hlk : winMacSuffixMap.lookup ("." ++ seg) with
    | none =>
      have hp : windows_to_mac_path ⟨dirs, stem, [seg]⟩ = ⟨dirs, stem, [seg]⟩ := by
        unfold windows_to_mac_path
        simp only [List.getLast?_singleton, hseg]
        rw [if_neg hx, hlk]
        rfl
      rw [hp, hp]
    | some v =>
      have hmem : (("." ++ seg), v) ∈ winMacSuffixMap := by
        obtain ⟨l₁, l₂, heq, -⟩ := List.lookup_eq_some_iff.mp hlk
        rw [heq]
        exact List.mem_append_right _ (List.mem_cons_self _ _)
      have hp : windows_to_mac_path ⟨dirs, stem, [seg]⟩ = ⟨dirs, stem, v⟩ := by
        unfold windows_to_mac_path
        simp only [List.getLast?_singleton, hseg]
        rw [if_neg hx, hlk]
        rfl
      rw [hp]
      simp only [winMacSuffixMap, List.mem_cons, List.not_mem_nil, or_false,
        Prod.mk.injEq] at hmem
      rcases hmem with ⟨hk, hv⟩ | ⟨hk, hv⟩ | ⟨hk, hv⟩ | ⟨hk, hv⟩
      all_goals first
        | exact absurd hk hx
        | (subst hv; rfl)

/-- C9 (amended): each direction's suffix remap table is deterministic (its
keys are pairwise distinct, so every source extension maps to exactly one
target extension) and the remap is idempotent on paths with a single,
lowercase extension as well as on extensionless paths; but only the
win→mac table is one-to-one — the mac→win table maps distinct source
extensions to the same target, as the counterexample shows. -/
theorem suffix_remap_amended :
    ((macWinSuffixMap.map Prod.fst).Nodup ∧ (winMacSuffixMap.map Prod.fst).Nodup) ∧
    (winMacSuffixMap.map Prod.snd).Nodup ∧
    (∀ (dirs : List String) (stem : String),
      mac_to_windows_path ⟨dirs, stem, []⟩ = ⟨dirs, stem, []⟩ ∧
      windows_to_mac_path ⟨dirs, stem, []⟩ = ⟨dirs, stem, []⟩) ∧
    (∀ (dirs : List String) (stem seg : String), pyLower seg = seg →
      mac_to_windows_path (mac_to_windows_path ⟨dirs, stem, [seg]⟩) =
        mac_to_windows_path ⟨dirs, stem, [seg]⟩ ∧
      windows_to_mac_path (windows_to_mac_path ⟨dirs, stem, [seg]⟩) =
        windows_to_mac_path ⟨dirs, stem, [seg]⟩) := by
  refine ⟨⟨by decide, by decide⟩, by decide, ?_, ?_⟩
  · intro dirs stem
    exact ⟨rfl, rfl⟩
  · intro dirs stem seg hseg
    exact ⟨mac_to_windows_path_idem dirs stem seg hseg,
      windows_to_mac_path_idem dirs stem seg hseg⟩

/-- Witness for C9's amended theorem at concrete paths. -/
theorem suffix_remap_amended_witness :
    mac_to_windows_path (mac_to_windows_path ⟨[], "Main", ["storyboard"]⟩) =
      mac_to_windows_path ⟨[], "Main", ["storyboard"]⟩ ∧
    windows_to_mac_path (windows_to_mac_path ⟨["ui"], "App", ["resx"]⟩) =
      windows_to_mac_path ⟨["ui"], "App", ["resx"]⟩ :=
  ⟨(suffix_remap_amended.2.2.2 [] "Main" "storyboard" rfl).1,
   (suffix_remap_amended.2.2.2 ["ui"] "App" "resx" rfl).2⟩

/-- When every attempted call fails, the primary retry loop exhausts all its
attempts with no result. -/
theorem retryPrimary_all_fail {α : Type} (f : ℕ → OrchestrationConfig → Except String α)
    (config : OrchestrationConfig) :
    ∀ (n start : ℕ),
      (∀ k, k < n → ∃ msg, f (start + k) config = Except.error msg) →
      retryPrimary f config start n = (none, n) := by
  intro n
  induction n with
  | zero => intro start _; rfl
  | succ n ih =>
    intro start h
    obtain ⟨msg, hmsg⟩ := h 0 (Nat.succ_pos n)
    rw [Nat.add_zero] at hmsg
    have hrest : retryPrimary f config (start + 1) n = (none, n) := by
      apply ih
      intro k hk
      obtain ⟨msg', hmsg'⟩ := h (k + 1) (Nat.succ_lt_succ hk)
      exact ⟨msg', by rw [← hmsg']; congr 1; omega⟩
    simp [retryPrimary, hmsg, hrest]

/-- When the first success comes at call `start + k`, the primary retry loop
stops there having made `k + 1` calls. -/
theorem retryPrimary_success_at {α : Type} (f : ℕ → OrchestrationConfig → Except String α)
    (config : OrchestrationConfig) (v : α) :
    ∀ (n start k : ℕ), k < n →
      (∀ j, j < k → ∃ msg, f (start + j) config = Except.error msg) →
      f (start + k) config = Except.ok v →
      retryPrimary f config start n = (some v, k + 1) := by
  intro n
  induction n with
  | zero => intro start k hk; omega
  | succ n ih =>
    intro start k hk hfail hok
    cases k with
    | zero =>
      rw [Nat.add_zero] at hok
      simp [retryPrimary, hok]
    | succ k' =>
      obtain ⟨msg, hmsg⟩ := hfail 0 (Nat.succ_pos k')
      rw [Nat.add_zero] at hmsg
      have hrest : retryPrimary f config (start + 1) n = (some v, k' + 1) := by
        apply ih (start + 1) k' (Nat.lt_of_succ_lt_succ hk)
        · intro j hj
          obtain ⟨msg', hmsg'⟩ := hfail (j + 1) (Nat.succ_lt_succ hj)
          exact ⟨msg', by rw [← hmsg']; congr 1; omega⟩
        · rw [← hok]; congr 1; omega
      simp [retryPrimary, hmsg, hrest]

/-- C4 (counterexample): with a configured retry count of 0, the claim's
`N = retry count + 1` allows a single primary attempt, but the engine
(`max_attempts = max(retries, 1) + 1`) calls the always-failing stub with
the primary configuration twice. -/
theorem retry_attempt_count_counterexample :
    ((execute (fun _ _ => (Except.error "boom" : Except String Unit))
      ⟨0, none, none⟩ ⟨true, 50, 8/10, true, none, none⟩ ⟨"openai", "gpt-5"⟩).2 =
      [⟨"openai", "gpt-5"⟩, ⟨"openai", "gpt-5"⟩]) ∧
    ((⟨0, none, none⟩ : AISettings).retries + 1 = 1) := by
  constructor
  · rfl
  · rfl

/-- C4 (amended): with `N = max(retries, 1) + 1`, the engine calls the
injected function with the unchanged primary configuration up to `N`
times, stopping early at the first success (after increasing backoff
delays between failed attempts); once all `N` primary attempts fail it
makes exactly one further call with the resolved fallback configuration
when one distinct from the primary is configured, propagating that call's
result, and raises a permanent provider error when none is. -/
theorem error_recovery_retry_fallback {α : Type}
    (f : ℕ → OrchestrationConfig → Except String α) (ai : AISettings)
    (cost : CostSettings) (base : OrchestrationConfig) (v : α) :
    (∀ k, k < max ai.retries 1 + 1 →
      (∀ j, j < k → ∃ msg, f j base = Except.error msg) →
      f k base = Except.ok v →
      execute f ai cost base = (Except.ok v, List.replicate (k + 1) base)) ∧
    ((∀ j, j < max ai.retries 1 + 1 → ∃ msg, f j base = Except.error msg) →
      ∀ fb, resolve_fallback_config ai cost base = some fb →
        (f (max ai.retries 1 + 1) fb = Except.ok v →
          execute f ai cost base =
            (Except.ok v, List.replicate (max ai.retries 1 + 1) base ++ [fb])) ∧
        (∀ msg, f (max ai.retries 1 + 1) fb = Except.error msg →
          execute f ai cost base =
            (Except.error msg, List.replicate (max ai.retries 1 + 1) base ++ [fb]))) ∧
    ((∀ j, j < max ai.retries 1 + 1 → ∃ msg, f j base = Except.error msg) →
      resolve_fallback_config ai cost base = none →
      execute f ai cost base =
        (Except.error "Conversion failed for chunk after retries",
         List.replicate (max ai.retries 1 + 1) base)) ∧
    (∀ a : ℕ, backoffDelay a < backoffDelay (a + 1)) := by
  refine ⟨?_, ?_, ?_, ?_⟩
  · intro k hk hfail hok
    have hrp := retryPrimary_success_at f base v (max ai.retries 1 + 1) 0 k hk
      (by intro j hj; simpa using hfail j hj) (by simpa using hok)
    simp [execute, hrp]
  · intro hfail fb hfb
    have hrp := retryPrimary_all_fail f base (max ai.retries 1 + 1) 0
      (by intro k hk; simpa using hfail k hk)
    constructor
    · intro hok
      simp [execute, hrp, hfb, hok]
    · intro msg hmsg
      simp [execute, hrp, hfb, hmsg]
  · intro hfail hnone
    have hrp := retryPrimary_all_fail f base (max ai.retries 1 + 1) 0
      (by intro k hk; simpa using hfail k hk)
    simp [execute, hrp, hnone]
  · intro a
    unfold backoffDelay
    push_cast
    linarith

/-- C6 (counterexample): recording the whitespace-only original `" "` three
times stores a pattern for `fingerprint("")` whose count 3 has reached its
threshold 3, yet `get_pattern("")` returns none because of the falsy-content
guard — so "returns the stored pattern iff its count has reached the
threshold" fails at empty content. -/
theorem get_pattern_empty_content_counterexample :
    find_pattern
      (record_manual_fix (record_manual_fix (record_manual_fix [] " " "x" ⟨none, none, none⟩)
        " " "x" ⟨none, none, none⟩) " " "x" ⟨none, none, none⟩)
      (fingerprint "") = some ⟨"", " ", "x", 3, 0, 0, 0, 3, none⟩ ∧
    (3 : ℕ) ≤ 3 ∧
    get_pattern
      (record_manual_fix (record_manual_fix (record_manual_fix [] " " "x" ⟨none, none, none⟩)
        " " "x" ⟨none, none, none⟩) " " "x" ⟨none, none, none⟩) "" = none := by
  decide

/-- C6 (amended): for non-empty content, `get_pattern` returns the stored
pattern for `fingerprint(content)` exactly when its occurrence count has
reached its auto-apply threshold (for empty content it always returns
none, as the counterexample shows); in particular, with the default
threshold 3, recording the same manual fix three times makes the pattern
visible with count 3 while recording it only twice leaves `get_pattern`
returning none. -/
theorem get_pattern_threshold_iff
    (patterns : List LearningPattern) (content original corrected : String)
    (p : LearningPattern) (hc : content ≠ "") (ho : original ≠ "") (hcor : corrected ≠ "") :
    (get_pattern patterns content = some p ↔
      (find_pattern patterns (fingerprint content) = some p ∧ p.threshold ≤ p.count)) ∧
    get_pattern
      (record_manual_fix (record_manual_fix [] original corrected ⟨none, none, none⟩)
        original corrected ⟨none, none, none⟩) original = none ∧
    get_pattern
      (record_manual_fix (record_manual_fix (record_manual_fix [] original corrected
        ⟨none, none, none⟩) original corrected ⟨none, none, none⟩)
        original corrected ⟨none, none, none⟩) original =
      some ⟨fingerprint original, original, corrected, 3, 0, 0, 0, THRESHOLD, none⟩ := by
  have hg : ¬(original = "" ∨ corrected = "") := by simp [ho, hcor]
  have hm1 : record_manual_fix [] original corrected ⟨none, none, none⟩ =
      [⟨fingerprint original, original, corrected, 1, 0, 0, 0, THRESHOLD, none⟩] := by
    unfold record_manual_fix
    rw [if_neg hg]
    rfl
  have hfind1 : find_pattern
      [(⟨fingerprint original, original, corrected, 1, 0, 0, 0, THRESHOLD, none⟩ :
        LearningPattern)] (fingerprint original) =
      some ⟨fingerprint original, original, corrected, 1, 0, 0, 0, THRESHOLD, none⟩ :=
    List.find?_cons_of_pos _ (by simp)
  have hm2 : record_manual_fix
      [⟨fingerprint original, original, corrected, 1, 0, 0, 0, THRESHOLD, none⟩]
      original corrected ⟨none, none, none⟩ =
      [⟨fingerprint original, original, corrected, 2, 0, 0, 0, THRESHOLD, none⟩] := by
    unfold record_manual_fix
    dsimp only
    rw [if_neg hg, hfind1]
    simp only [List.map_cons, List.map_nil, if_true]
    rfl
  have hfind2 : find_pattern
      [(⟨fingerprint original, original, corrected, 2, 0, 0, 0, THRESHOLD, none⟩ :
        LearningPattern)] (fingerprint original) =
      some ⟨fingerprint original, original, corrected, 2, 0, 0, 0, THRESHOLD, none⟩ :=
    List.find?_cons_of_pos _ (by simp)
  have hm3 : record_manual_fix
      [⟨fingerprint original, original, corrected, 2, 0, 0, 0, THRESHOLD, none⟩]
      original corrected ⟨none, none, none⟩ =
      [⟨fingerprint original, original, corrected, 3, 0, 0, 0, THRESHOLD, none⟩] := by
    unfold record_manual_fix
    dsimp only
    rw [if_neg hg, hfind2]
    simp only [List.map_cons, List.map_nil, if_true]
    rfl
  have hfind3 : find_pattern
      [(⟨fingerprint original, original, corrected, 3, 0, 0, 0, THRESHOLD, none⟩ :
        LearningPattern)] (fingerprint original) =
      some ⟨fingerprint original, original, corrected, 3, 0, 0, 0, THRESHOLD, none⟩ :=
    List.find?_cons_of_pos _ (by simp)
  refine ⟨?_, ?_, ?_⟩
  · unfold get_pattern
    rw [if_neg hc]
    cases hf : find_pattern patterns (fingerprint content) with
    | none =>
      simp only []
      constructor
      · intro h; exact Option.noConfusion h
      · rintro ⟨heq, -⟩; exact Option.noConfusion heq
    | some q =>
      simp only []
      by_cases hlt : q.count < q.threshold
      · rw [if_pos hlt]
        constructor
        · intro h; exact Option.noConfusion h
        · rintro ⟨heq, hle⟩
          injection heq with heq'
          subst heq'
          omega
      · rw [if_neg hlt]
        constructor
        · intro h
          refine ⟨h, ?_⟩
          injection h with h'
          subst h'
          omega
        · rintro ⟨h, -⟩; exact h
  · rw [hm1, hm2]
    unfold get_pattern
    rw [if_neg ho, hfind2]
    simp [THRESHOLD]
  · rw [hm1, hm2, hm3]
    unfold get_pattern
    rw [if_neg ho, hfind3]
    simp [THRESHOLD]

/-- Witness for C6's amended theorem at a concrete manual fix. -/
theorem get_pattern_threshold_iff_witness :
    (get_pattern [] "let v = NSView()" = some ⟨"", "", "", 0, 0, 0, 0, 3, none⟩ ↔
      (find_pattern [] (fingerprint "let v = NSView()") =
        some ⟨"", "", "", 0, 0, 0, 0, 3, none⟩ ∧ (3 : ℕ) ≤ 0)) ∧
    get_pattern
      (record_manual_fix (record_manual_fix [] "let v = NSView()" "let v = UIView()"
        ⟨none, none, none⟩) "let v = NSView()" "let v = UIView()" ⟨none, none, none⟩)
      "let v = NSView()" = none ∧
    get_pattern
      (record_manual_fix (record_manual_fix (record_manual_fix []
        "let v = NSView()" "let v = UIView()" ⟨none, none, none⟩)
        "let v = NSView()" "let v = UIView()" ⟨none, none, none⟩)
        "let v = NSView()" "let v = UIView()" ⟨none, none, none⟩)
      "let v = NSView()" =
      some ⟨fingerprint "let v = NSView()", "let v = NSView()", "let v = UIView()",
        3, 0, 0, 0, THRESHOLD, none⟩ :=
  get_pattern_threshold_iff [] "let v = NSView()" "let v = NSView()" "let v = UIView()"
    ⟨"", "", "", 0, 0, 0, 0, 3, none⟩ (by decide) (by decide) (by decide)

/-- Witness for C4's amended theorem: retries = 3 (N = 5), a stub failing on
calls 0 and 1 and succeeding on call 2 completes with the primary config
after exactly 2 retries, having called it 3 times. -/
theorem error_recovery_retry_fallback_witness :
    execute (fun n _ => if n < 2 then (Except.error "transient" : Except String String)
        else Except.ok "done")
      ⟨3, none, none⟩ ⟨true, 50, 8/10, true, none, none⟩ ⟨"openai", "gpt-5"⟩ =
      (Except.ok "done", List.replicate 3 ⟨"openai", "gpt-5"⟩) :=
  (error_recovery_retry_fallback
    (fun n _ => if n < 2 then (Except.error "transient" : Except String String)
      else Except.ok "done")
    ⟨3, none, none⟩ ⟨true, 50, 8/10, true, none, none⟩ ⟨"openai", "gpt-5"⟩ "done").1
    2 (by decide)
    (by
      intro j hj
      refine ⟨"transient", ?_⟩
      interval_cases j <;> rfl)
    rfl

end Mac2Win
